import Mathlib

/-!
Shallow embedding of the loader
AvailableQuantityByProductVariantIdAndShippingZoneCodeLoader
from src/saleor/graphql/warehouse/dataloaders.py, together with proofs about
its batch_load and batch_load_shipping_zone methods.

Keys are pairs (variant id, optional shipping-zone name); the backing store is
a list of stock rows; dictionaries of the Python source (defaultdict) are
modelled as total functions built by left folds over the same iteration the
source performs, with the defaultdict default outside the assigned keys.
-/

/-- One row of the store query result, as produced by
Stock.objects ... .values_list("product_variant_id", "warehouse__shipping_zones",
"available_quantity"), together with the shipping-zone name that the
(discarded) qualifier filter warehouse__shipping_zones__name would compare. -/
structure RawRecord where
  variantId : Nat
  zoneId : Nat
  zoneName : String
  quantity : Int
deriving DecidableEq, Repr

/-- A lookup key: VariantIdAndShippingZone = Tuple[int, ShippingZone], where
ShippingZone = Optional[str]. -/
abbrev LookupKey := Nat × Option String

/-- The store query of batch_load_shipping_zone:
results = Stock.objects.filter(product_variant_id__in=variant_ids), then
`if shipping_zone: results.filter(warehouse__shipping_zones__name=shipping_zone)`.
The second filter call builds a new queryset whose value is discarded (it is not
assigned back to results), so the shipping-zone restriction never takes
effect and the argument is unused. -/
def fetchRecords (store : List RawRecord) (variant_ids : List Nat)
    (shipping_zone : Option String) : List RawRecord :=
  let _ := shipping_zone
  store.filter (fun r => decide (r.variantId ∈ variant_ids))

/-- One `+=` step of the loop
`quantity_by_shipping_zone_by_product_variant[variant_id][shipping_zone_id] += quantity`,
with the nested defaultdict(lambda: defaultdict(int)) modelled as a total
function that is zero outside the assigned keys. -/
def addRecord (acc : Nat → Nat → Int) (r : RawRecord) : Nat → Nat → Int :=
  fun v z => if r.variantId = v ∧ r.zoneId = z then acc v z + r.quantity else acc v z

/-- The nested quantity dictionary after the whole loop over the query rows. -/
def quantity_by_zone_by_variant (results : List RawRecord) : Nat → Nat → Int :=
  results.foldl addRecord (fun _ _ => 0)

/-- The key set of the inner dictionary of variant v: the shipping-zone ids of
the rows of v, each once (the iteration order of dict values is irrelevant to
the max that consumes them). -/
def zonesOf (results : List RawRecord) (v : Nat) : List Nat :=
  ((results.filter (fun r => decide (r.variantId = v))).map RawRecord.zoneId).dedup

/-- Python max(values) over the inner dictionary of a variant present in the
outer dictionary, together with the defaultdict(int) default 0 of quantity_map
for a variant with no rows. -/
def maxValues : List Int → Int
  | [] => 0
  | a :: as => as.foldl max a

/-- quantity_map[variant_id] = max(quantity_by_shipping_zone.values()), read
back through the defaultdict(int). -/
def quantity_map (results : List RawRecord) (v : Nat) : Int :=
  maxValues ((zonesOf results v).map (quantity_by_zone_by_variant results v))

/-- batch_load_shipping_zone(self, shipping_zone, variant_ids): fetch the rows
(results), aggregate, and return the capped quantities, one pair per requested
variant id; cap stands for settings.MAX_CHECKOUT_LINE_QUANTITY. -/
def batch_load_shipping_zone (store : List RawRecord) (cap : Int)
    (shipping_zone : Option String) (variant_ids : List Nat) : List (Nat × Int) :=
  variant_ids.map (fun v =>
    (v, min (quantity_map (fetchRecords store variant_ids shipping_zone) v) cap))

/-- variants_by_shipping_zone[shipping_zone]: the defaultdict(list) built by
`for variant_id, shipping_zone in keys: variants_by_shipping_zone[shipping_zone].append(variant_id)`. -/
def variants_by_shipping_zone (keys : List LookupKey) (z : Option String) : List Nat :=
  (keys.filter (fun k => decide (k.2 = z))).map Prod.fst

/-- The key list of variants_by_shipping_zone: one entry per distinct shipping
zone of the batch (the zone loop's iteration order influences no result, see
the fold lemmas below). -/
def zoneKeys (keys : List LookupKey) : List (Option String) :=
  (keys.map Prod.snd).dedup

/-- One assignment
`quantity_by_variant_and_shipping_zone[(variant_id, shipping_zone)] = quantity`,
on the outer defaultdict(int) modelled as a total function. -/
def storeQuantity (z : Option String) (acc : LookupKey → Int) (vq : Nat × Int) :
    LookupKey → Int :=
  fun key => if key = (vq.1, z) then vq.2 else acc key

/-- One iteration of the zone loop of batch_load: call batch_load_shipping_zone
for this zone's variant list and record every returned pair. -/
def zoneStep (store : List RawRecord) (cap : Int) (keys : List LookupKey)
    (acc : LookupKey → Int) (z : Option String) : LookupKey → Int :=
  (batch_load_shipping_zone store cap z (variants_by_shipping_zone keys z)).foldl
    (storeQuantity z) acc

/-- batch_load(self, keys): split the keys by shipping zone, resolve each zone
group with one store query, collect the quantities into the dictionary, and
answer `[quantity_by_variant_and_shipping_zone[key] for key in keys]`. -/
def batch_load (store : List RawRecord) (cap : Int) (keys : List LookupKey) :
    List Int :=
  keys.map ((zoneKeys keys).foldl (zoneStep store cap keys) (fun _ => 0))

/-- batch_load instrumented with a store-query counter: each call of
batch_load_shipping_zone evaluates its queryset exactly once. -/
def batch_load_counting (store : List RawRecord) (cap : Int)
    (keys : List LookupKey) : List Int × Nat :=
  let st := (zoneKeys keys).foldl
    (fun p z => (zoneStep store cap keys p.1 z, p.2 + 1)) ((fun _ => 0), 0)
  (keys.map st.1, st.2)

/-- Sum of the quantities of the rows sharing one (variant id, zone id) pair:
the first aggregation level, written as a direct sum over the filtered rows. -/
def subgroupSum (results : List RawRecord) (v z : Nat) : Int :=
  ((results.filter (fun r => decide (r.variantId = v ∧ r.zoneId = z))).map
    RawRecord.quantity).sum

/-- The per-key value that batch_load is proved to return: the two-level
aggregate of the rows of the key's variant, clamped at the cap. The
shipping-zone component of the key is not consulted (the qualifier filter is
discarded in fetchRecords). -/
def valueFor (store : List RawRecord) (cap : Int) (key : LookupKey) : Int :=
  min (quantity_map store key.1) cap

/-! ### The incremental dictionary equals the direct sum -/

theorem foldl_addRecord (l : List RawRecord) :
    ∀ (f : Nat → Nat → Int) (v z : Nat),
      (l.foldl addRecord f) v z = f v z + subgroupSum l v z := by
  induction l with
  | nil => intro f v z; simp [subgroupSum]
  | cons r t ih =>
    intro f v z
    rw [List.foldl_cons, ih]
    by_cases h : r.variantId = v ∧ r.zoneId = z
    · simp [subgroupSum, addRecord, List.filter_cons, h, add_assoc]
    · simp [subgroupSum, addRecord, List.filter_cons, h]

theorem quantity_by_zone_by_variant_eq (results : List RawRecord) (v z : Nat) :
    quantity_by_zone_by_variant results v z = subgroupSum results v z := by
  rw [quantity_by_zone_by_variant, foldl_addRecord]
  simp

/-! ### Facts about the Python max over a nonempty value collection -/

theorem le_foldl_max (l : List Int) : ∀ a : Int, a ≤ l.foldl max a := by
  induction l with
  | nil => intro a; simp
  | cons b t ih =>
    intro a
    rw [List.foldl_cons]
    exact le_trans (le_max_left a b) (ih (max a b))

theorem foldl_max_mem (l : List Int) :
    ∀ a : Int, l.foldl max a = a ∨ l.foldl max a ∈ l := by
  induction l with
  | nil => intro a; simp
  | cons b t ih =>
    intro a
    rw [List.foldl_cons]
    rcases ih (max a b) with h | h
    · rw [h]
      rcases max_choice a b with h2 | h2 <;> rw [h2]
      · exact Or.inl rfl
      · exact Or.inr (List.mem_cons_self b t)
    · exact Or.inr (List.mem_cons_of_mem b h)

theorem mem_le_foldl_max (l : List Int) :
    ∀ (a x : Int), x ∈ l → x ≤ l.foldl max a := by
  induction l with
  | nil => intro a x hx; simp at hx
  | cons b t ih =>
    intro a x hx
    rw [List.foldl_cons]
    rcases List.mem_cons.mp hx with h | h
    · subst h
      exact le_trans (le_max_right a x) (le_foldl_max t (max a x))
    · exact ih (max a b) x h

theorem maxValues_mem (l : List Int) (h : l ≠ []) : maxValues l ∈ l := by
  cases l with
  | nil => exact absurd rfl h
  | cons a as =>
    rw [maxValues]
    rcases foldl_max_mem as a with h2 | h2
    · rw [h2]
      exact List.mem_cons_self a as
    · exact List.mem_cons_of_mem a h2

theorem le_maxValues (l : List Int) (x : Int) (hx : x ∈ l) : x ≤ maxValues l := by
  cases l with
  | nil => simp at hx
  | cons a as =>
    rw [maxValues]
    rcases List.mem_cons.mp hx with h | h
    · subst h
      exact le_foldl_max as x
    · exact mem_le_foldl_max as a x h

/-! ### The aggregate of a variant only depends on that variant's rows -/

theorem zonesOf_fetch (store : List RawRecord) (vids : List Nat)
    (z : Option String) (v : Nat) (hv : v ∈ vids) :
    zonesOf (fetchRecords store vids z) v = zonesOf store v := by
  rw [zonesOf, zonesOf, fetchRecords, List.filter_filter]
  congr 2
  apply List.filter_congr
  intro r _
  by_cases h : r.variantId = v
  · simp [h, hv]
  · simp [h]

theorem subgroupSum_fetch (store : List RawRecord) (vids : List Nat)
    (z : Option String) (v : Nat) (hv : v ∈ vids) (zid : Nat) :
    subgroupSum (fetchRecords store vids z) v zid = subgroupSum store v zid := by
  rw [subgroupSum, subgroupSum, fetchRecords, List.filter_filter]
  congr 2
  apply List.filter_congr
  intro r _
  by_cases h : r.variantId = v ∧ r.zoneId = zid
  · simp [h, h.1, hv]
  · simp [h]

theorem quantity_map_fetch (store : List RawRecord) (vids : List Nat)
    (z : Option String) (v : Nat) (hv : v ∈ vids) :
    quantity_map (fetchRecords store vids z) v = quantity_map store v := by
  rw [quantity_map, quantity_map, zonesOf_fetch store vids z v hv]
  congr 1
  apply List.map_congr_left
  intro zid _
  rw [quantity_by_zone_by_variant_eq, quantity_by_zone_by_variant_eq,
    subgroupSum_fetch store vids z v hv zid]

/-! ### Assembling the zone loop: what the final dictionary answers -/

theorem foldl_storeQuantity_map (z : Option String) (f : Nat → Int)
    (vids : List Nat) :
    ∀ (acc : LookupKey → Int) (key : LookupKey),
      ((vids.map (fun v => (v, f v))).foldl (storeQuantity z) acc) key
        = if key.2 = z ∧ key.1 ∈ vids then f key.1 else acc key := by
  induction vids with
  | nil => intro acc key; simp
  | cons a t ih =>
    intro acc key
    rw [List.map_cons, List.foldl_cons, ih]
    by_cases h1 : key.2 = z ∧ key.1 ∈ t
    · simp [h1, h1.1, h1.2]
    · by_cases h2 : key = (a, z)
      · have hf : key.1 = a ∧ key.2 = z := by
          rw [Prod.ext_iff] at h2
          exact ⟨h2.1, h2.2⟩
        simp [h1, storeQuantity, h2, hf.1, hf.2]
      · have h3 : ¬(key.2 = z ∧ (key.1 = a ∨ key.1 ∈ t)) := by
          rintro ⟨hz, hm⟩
          rcases hm with h4 | h4
          · exact h2 (Prod.ext h4 hz)
          · exact h1 ⟨hz, h4⟩
        simp [h1, h3, storeQuantity, h2]

theorem foldl_storeQuantity_other (z : Option String) (pairs : List (Nat × Int)) :
    ∀ (acc : LookupKey → Int) (key : LookupKey), key.2 ≠ z →
      (pairs.foldl (storeQuantity z) acc) key = acc key := by
  induction pairs with
  | nil => intro acc key _; rfl
  | cons vq t ih =>
    intro acc key hz
    rw [List.foldl_cons, ih _ key hz]
    have h2 : key ≠ (vq.1, z) := by
      intro h
      exact hz (by rw [h])
    simp [storeQuantity, h2]

theorem zoneStep_eq (store : List RawRecord) (cap : Int) (keys : List LookupKey)
    (acc : LookupKey → Int) (z : Option String) (key : LookupKey) :
    zoneStep store cap keys acc z key
      = if key.2 = z ∧ key.1 ∈ variants_by_shipping_zone keys z
        then min (quantity_map
          (fetchRecords store (variants_by_shipping_zone keys z) z) key.1) cap
        else acc key := by
  rw [zoneStep, batch_load_shipping_zone]
  exact foldl_storeQuantity_map z _ (variants_by_shipping_zone keys z) acc key

theorem foldl_zoneStep_other (store : List RawRecord) (cap : Int)
    (keys : List LookupKey) (zs : List (Option String)) :
    ∀ (acc : LookupKey → Int) (key : LookupKey), key.2 ∉ zs →
      (zs.foldl (zoneStep store cap keys) acc) key = acc key := by
  induction zs with
  | nil => intro acc key _; rfl
  | cons z t ih =>
    intro acc key hz
    rw [List.foldl_cons, ih _ key (fun h => hz (List.mem_cons_of_mem z h)),
      zoneStep_eq]
    have h1 : key.2 ≠ z := fun h => hz (h ▸ List.mem_cons_self z t)
    simp [h1]

theorem foldl_zoneStep (store : List RawRecord) (cap : Int)
    (keys : List LookupKey) (zs : List (Option String)) :
    ∀ (acc : LookupKey → Int) (key : LookupKey), key.2 ∈ zs →
      key.1 ∈ variants_by_shipping_zone keys key.2 →
      (zs.foldl (zoneStep store cap keys) acc) key
        = min (quantity_map (fetchRecords store
            (variants_by_shipping_zone keys key.2) key.2) key.1) cap := by
  induction zs with
  | nil => intro acc key hz; simp at hz
  | cons z t ih =>
    intro acc key hz hv
    rw [List.foldl_cons]
    by_cases ht : key.2 ∈ t
    · exact ih _ key ht hv
    · have hz2 : key.2 = z := by
        rcases List.mem_cons.mp hz with h | h
        · exact h
        · exact absurd h ht
      rw [foldl_zoneStep_other store cap keys t _ key ht, zoneStep_eq]
      rw [← hz2]
      simp [hv]

/-- The central characterization: batch_load answers every key, in order, with
the clamped two-level aggregate of that key's variant. -/
theorem batch_load_eq_map (store : List RawRecord) (cap : Int)
    (keys : List LookupKey) :
    batch_load store cap keys = keys.map (valueFor store cap) := by
  rw [batch_load]
  apply List.map_congr_left
  intro key hkey
  have h1 : key.2 ∈ zoneKeys keys :=
    List.mem_dedup.mpr (List.mem_map.mpr ⟨key, hkey, rfl⟩)
  have h2 : key.1 ∈ variants_by_shipping_zone keys key.2 := by
    apply List.mem_map.mpr
    refine ⟨key, List.mem_filter.mpr ⟨hkey, by simp⟩, rfl⟩
  rw [foldl_zoneStep store cap keys (zoneKeys keys) _ key h1 h2,
    quantity_map_fetch store _ key.2 key.1 h2]
  rfl

/-! ### The instrumented orchestrator -/

theorem foldl_pair_count {α β : Type} (g : β → α → β) (l : List α) :
    ∀ p : β × Nat,
      l.foldl (fun p z => (g p.1 z, p.2 + 1)) p = (l.foldl g p.1, p.2 + l.length) := by
  induction l with
  | nil => intro p; simp
  | cons a t ih =>
    intro p
    rw [List.foldl_cons, ih, List.foldl_cons]
    exact Prod.ext rfl (by simp; omega)

theorem batch_load_counting_eq (store : List RawRecord) (cap : Int)
    (keys : List LookupKey) :
    batch_load_counting store cap keys
      = (batch_load store cap keys, (zoneKeys keys).length) := by
  simp only [batch_load_counting]
  rw [foldl_pair_count (zoneStep store cap keys) (zoneKeys keys)]
  simp [batch_load]

/-! ### Nonnegativity of the aggregate -/

theorem quantity_map_nonneg (store : List RawRecord) (v : Nat)
    (hq : ∀ r ∈ store, 0 ≤ r.quantity) : 0 ≤ quantity_map store v := by
  rw [quantity_map]
  cases hzs : (zonesOf store v).map (quantity_by_zone_by_variant store v) with
  | nil => exact le_refl 0
  | cons a as =>
    have ha : a ∈ (zonesOf store v).map (quantity_by_zone_by_variant store v) := by
      rw [hzs]
      exact List.mem_cons_self a as
    rcases List.mem_map.mp ha with ⟨z, _, hza⟩
    have h0 : (0 : Int) ≤ a := by
      rw [← hza, quantity_by_zone_by_variant_eq]
      apply List.sum_nonneg
      intro x hx
      rcases List.mem_map.mp hx with ⟨r, hr, hrx⟩
      rw [← hrx]
      exact hq r (List.mem_filter.mp hr).1
    exact le_trans h0 (le_foldl_max as a)

/-! ### Claims -/

/-- Claim C1 (code bug): the spec requires the store query of a qualifier group
to be restricted to that qualifier's scope, so that records under Q1 never
contribute to a key requested under Q2. In the code the restriction
`results.filter(warehouse__shipping_zones__name=shipping_zone)` is built but
never assigned back to results, so the query for qualifier Q2 returns the
record tagged Q1 and the result for the key requested under Q2 is computed
from it: the batch answer is 7, not 0, although no record is tagged Q2. -/
theorem C1_qualifier_filter_discarded :
    fetchRecords [⟨1, 100, "Q1", 7⟩] [1] (some "Q2") = [⟨1, 100, "Q1", 7⟩]
      ∧ batch_load [⟨1, 100, "Q1", 7⟩] 10 [(1, some "Q2")] = [7]
      ∧ ([⟨1, 100, "Q1", 7⟩] : List RawRecord).filter
          (fun r => decide (r.zoneName = "Q2")) = [] := by
  decide

/-- Claim C2: for a fixed store state and cap, the value a key receives from
batch_load is independent of the key's qualifier component: the per-key value
ignores the qualifier, and resolving (v, q1) equals resolving (v, q2), because
the qualifier filter's result is discarded and all subgroups are considered. -/
theorem C2_result_independent_of_qualifier (store : List RawRecord) (cap : Int)
    (v : Nat) (q1 q2 : Option String) :
    valueFor store cap (v, q1) = valueFor store cap (v, q2)
      ∧ batch_load store cap [(v, q1)] = batch_load store cap [(v, q2)] := by
  refine ⟨rfl, ?_⟩
  rw [batch_load_eq_map, batch_load_eq_map]
  rfl

/-- Claim C3: for every variant that has at least one row in a query result,
its pre-clamp aggregate quantity_map is the maximum, over the variant's
subgroups, of the per-subgroup sums of quantities (it is one of the subgroup
sums and bounds all of them); and on the spec's example store the batch answer
for item 1 is max(5+3, 4) = 8 under cap 10 and 6 under cap 6. -/
theorem C3_two_level_aggregation :
    (∀ (results : List RawRecord) (v : Nat),
        (∃ r ∈ results, r.variantId = v) →
        quantity_map results v
            ∈ (zonesOf results v).map (fun z => subgroupSum results v z)
          ∧ ∀ z ∈ zonesOf results v,
              subgroupSum results v z ≤ quantity_map results v)
      ∧ batch_load [⟨1, 101, "Q", 5⟩, ⟨1, 101, "Q", 3⟩, ⟨1, 102, "Q", 4⟩] 10
          [(1, some "Q")] = [8]
      ∧ batch_load [⟨1, 101, "Q", 5⟩, ⟨1, 101, "Q", 3⟩, ⟨1, 102, "Q", 4⟩] 6
          [(1, some "Q")] = [6] := by
  refine ⟨?_, by decide, by decide⟩
  intro results v hr
  have hmap : (zonesOf results v).map (quantity_by_zone_by_variant results v)
      = (zonesOf results v).map (fun z => subgroupSum results v z) :=
    List.map_congr_left (fun z _ => quantity_by_zone_by_variant_eq results v z)
  have hne : (zonesOf results v).map (fun z => subgroupSum results v z) ≠ [] := by
    rcases hr with ⟨r, hrmem, hrv⟩
    have hzmem : r.zoneId ∈ zonesOf results v := by
      rw [zonesOf]
      exact List.mem_dedup.mpr
        (List.mem_map.mpr ⟨r, List.mem_filter.mpr ⟨hrmem, by simp [hrv]⟩, rfl⟩)
    intro h
    rw [List.map_eq_nil_iff] at h
    rw [h] at hzmem
    simp at hzmem
  constructor
  · rw [quantity_map, hmap]
    exact maxValues_mem _ hne
  · intro z hz
    rw [quantity_map, hmap]
    exact le_maxValues _ _ (List.mem_map.mpr ⟨z, hz, rfl⟩)

/-- Claim C3 witness: the general aggregation statement instantiated at the
example store and item 1. -/
theorem C3_two_level_aggregation_witness :
    (∃ r ∈ ([⟨1, 101, "Q", 5⟩, ⟨1, 101, "Q", 3⟩, ⟨1, 102, "Q", 4⟩] :
        List RawRecord), r.variantId = 1)
      ∧ (quantity_map [⟨1, 101, "Q", 5⟩, ⟨1, 101, "Q", 3⟩, ⟨1, 102, "Q", 4⟩] 1
            ∈ (zonesOf [⟨1, 101, "Q", 5⟩, ⟨1, 101, "Q", 3⟩, ⟨1, 102, "Q", 4⟩] 1).map
              (fun z => subgroupSum
                [⟨1, 101, "Q", 5⟩, ⟨1, 101, "Q", 3⟩, ⟨1, 102, "Q", 4⟩] 1 z)
          ∧ ∀ z ∈ zonesOf [⟨1, 101, "Q", 5⟩, ⟨1, 101, "Q", 3⟩, ⟨1, 102, "Q", 4⟩] 1,
              subgroupSum [⟨1, 101, "Q", 5⟩, ⟨1, 101, "Q", 3⟩, ⟨1, 102, "Q", 4⟩] 1 z
                ≤ quantity_map
                  [⟨1, 101, "Q", 5⟩, ⟨1, 101, "Q", 3⟩, ⟨1, 102, "Q", 4⟩] 1) :=
  ⟨by decide, C3_two_level_aggregation.1
    [⟨1, 101, "Q", 5⟩, ⟨1, 101, "Q", 3⟩, ⟨1, 102, "Q", 4⟩] 1 (by decide)⟩

/-- Claim C4: batch_load answers every key: the output has the length of the
input, and its i-th entry is the per-key value of the i-th input key, so the
output mirrors the input's order and multiplicity and depends pointwise only
on the corresponding key (besides the store and the cap). -/
theorem C4_output_mirrors_input (store : List RawRecord) (cap : Int)
    (keys : List LookupKey) :
    (batch_load store cap keys).length = keys.length
      ∧ ∀ i : Nat,
          (batch_load store cap keys)[i]? = (keys[i]?).map (valueFor store cap) := by
  rw [batch_load_eq_map]
  exact ⟨List.length_map keys (valueFor store cap),
    fun i => List.getElem?_map (valueFor store cap) keys i⟩

/-- Claim C5 counterexample: the partitioner keeps duplicates. The claim says
each qualifier's item collection contains no duplicate ItemIds, but for the
batch [(1, None), (1, None)] the list built for qualifier None is [1, 1]. -/
theorem C5_partition_has_duplicates :
    ¬ (variants_by_shipping_zone [(1, none), (1, none)] none).Nodup := by
  decide

/-- Claim C5 amended: the partitioner maps each qualifier to the ordered list —
with multiplicity, not deduplicated — of the ItemIds requested under it: an
ItemId is in a qualifier's list exactly when that (ItemId, Qualifier) pair is
in the input, with equal multiplicity, so every pair lands in exactly the one
partition indexed by its qualifier and none is lost. -/
theorem C5_partition_exact (keys : List LookupKey) (v : Nat) (q : Option String) :
    (v ∈ variants_by_shipping_zone keys q ↔ (v, q) ∈ keys)
      ∧ (variants_by_shipping_zone keys q).countP (fun x => decide (x = v))
          = keys.countP (fun k => decide (k = (v, q))) := by
  constructor
  · constructor
    · intro h
      rcases List.mem_map.mp h with ⟨k, hk, hkv⟩
      have hq : k.2 = q := by
        have := (List.mem_filter.mp hk).2
        simpa using this
      have hkeq : k = (v, q) := Prod.ext hkv hq
      rw [← hkeq]
      exact (List.mem_filter.mp hk).1
    · intro h
      exact List.mem_map.mpr ⟨(v, q), List.mem_filter.mpr ⟨h, by simp⟩, rfl⟩
  · induction keys with
    | nil => rfl
    | cons k t ih =>
      rw [variants_by_shipping_zone, List.filter_cons]
      by_cases h : k.2 = q
      · rw [if_pos (by simp [h]), List.map_cons, List.countP_cons, List.countP_cons]
        rw [variants_by_shipping_zone] at ih
        rw [ih]
        by_cases hv : k.1 = v
        · rw [if_pos (by simp [hv]), if_pos (by simp [Prod.ext_iff, hv, h])]
        · rw [if_neg (by simp [hv]), if_neg (by simp [Prod.ext_iff, hv])]
      · rw [if_neg (by simp [h]), List.countP_cons]
        rw [variants_by_shipping_zone] at ih
        rw [ih]
        rw [if_neg (by simp [Prod.ext_iff, h])]
        rfl

/-- Claim C6 counterexample: a requested ItemId with zero matching records is
not absent from the group resolver's output: against an empty store the group
resolver still returns the pair (1, 0) for the requested item 1. -/
theorem C6_zero_record_item_present :
    (1, 0) ∈ batch_load_shipping_zone ([] : List RawRecord) 10 none [1]
      ∧ fetchRecords ([] : List RawRecord) [1] none = [] := by
  decide

/-- Claim C6 amended: the group resolver returns one pair per requested ItemId,
in request order; a requested ItemId with zero matching records is present with
the value min(0, cap) — the defaultdict turns absence from the intermediate
aggregate map into an explicit zero before clamping, rather than omitting the
item from the returned collection. -/
theorem C6_group_resolver_total (store : List RawRecord) (cap : Int)
    (z : Option String) (vids : List Nat) :
    (batch_load_shipping_zone store cap z vids).map Prod.fst = vids
      ∧ ∀ v ∈ vids,
          (fetchRecords store vids z).filter (fun r => decide (r.variantId = v)) = [] →
          (v, min 0 cap) ∈ batch_load_shipping_zone store cap z vids := by
  constructor
  · rw [batch_load_shipping_zone, List.map_map]
    exact (List.map_congr_left fun a _ => rfl).trans (List.map_id vids)
  · intro v hv hempty
    have hq : quantity_map (fetchRecords store vids z) v = 0 := by
      rw [quantity_map, zonesOf, hempty]
      rfl
    rw [batch_load_shipping_zone]
    exact List.mem_map.mpr ⟨v, hv, by rw [hq]⟩

/-- Claim C6 amended witness: at the empty store, item 1 is requested, has no
matching record, and the pair (1, min 0 10) is in the resolver's output. -/
theorem C6_group_resolver_total_witness :
    (fetchRecords ([] : List RawRecord) [1] none).filter
        (fun r => decide (r.variantId = 1)) = []
      ∧ (1, min 0 (10 : Int)) ∈ batch_load_shipping_zone ([] : List RawRecord) 10 none [1] :=
  ⟨by decide, (C6_group_resolver_total [] 10 none [1]).2 1 (by decide) (by decide)⟩

/-- Claim C7: when the cap is nonnegative and every stored quantity is
nonnegative, every value in the output of batch_load is min of the aggregated
value (zero when the variant has no rows) and the cap, and lies between 0 and
the cap. -/
theorem C7_clamped_bounds (store : List RawRecord) (cap : Int)
    (keys : List LookupKey) (hcap : 0 ≤ cap)
    (hq : ∀ r ∈ store, 0 ≤ r.quantity) :
    ∀ x ∈ batch_load store cap keys,
      (∃ k ∈ keys, x = min (quantity_map store k.1) cap) ∧ 0 ≤ x ∧ x ≤ cap := by
  intro x hx
  rw [batch_load_eq_map] at hx
  rcases List.mem_map.mp hx with ⟨k, hk, hval⟩
  refine ⟨⟨k, hk, hval.symm⟩, ?_, ?_⟩
  · rw [← hval]
    exact le_min (quantity_map_nonneg store k.1 hq) hcap
  · rw [← hval]
    exact min_le_right _ _

/-- Claim C7 witness: the bounds at a concrete store, cap 6 and two keys. -/
theorem C7_clamped_bounds_witness :
    (0 : Int) ≤ 6
      ∧ (∀ r ∈ ([⟨1, 101, "Q", 5⟩, ⟨1, 102, "Q", 9⟩] : List RawRecord),
          0 ≤ r.quantity)
      ∧ ∀ x ∈ batch_load [⟨1, 101, "Q", 5⟩, ⟨1, 102, "Q", 9⟩] 6
            [(1, none), (2, some "Z")],
          (∃ k ∈ ([(1, none), (2, some "Z")] : List LookupKey),
              x = min (quantity_map [⟨1, 101, "Q", 5⟩, ⟨1, 102, "Q", 9⟩] k.1) 6)
            ∧ 0 ≤ x ∧ x ≤ 6 :=
  ⟨by decide, by decide,
    C7_clamped_bounds [⟨1, 101, "Q", 5⟩, ⟨1, 102, "Q", 9⟩] 6
      [(1, none), (2, some "Z")] (by decide) (by decide)⟩

/-- Claim C8: the store is queried exactly once per distinct qualifier of the
batch: the instrumented orchestrator counts one query per entry of the
deduplicated zone list, which is the number of distinct qualifiers, while
returning the same answers as batch_load; the empty batch yields the empty
answer with zero store calls. -/
theorem C8_one_query_per_qualifier (store : List RawRecord) (cap : Int)
    (keys : List LookupKey) :
    (batch_load_counting store cap keys).2 = ((keys.map Prod.snd).toFinset).card
      ∧ (batch_load_counting store cap keys).1 = batch_load store cap keys
      ∧ batch_load_counting store cap [] = ([], 0) := by
  refine ⟨?_, ?_, rfl⟩
  · rw [batch_load_counting_eq]
    exact (List.card_toFinset (keys.map Prod.snd)).symm
  · rw [batch_load_counting_eq]

/-- Claim C9 (code bug): the spec requires a key whose ItemId has no matching
record under its qualifier to resolve to 0. Because the qualifier restriction
is discarded, the key (1, Q2) resolves to 5 from a record tagged Q1, although
no record is tagged Q2. -/
theorem C9_zero_default_violated :
    batch_load [⟨1, 200, "Q1", 5⟩] 10 [(1, some "Q2")] = [5]
      ∧ ([⟨1, 200, "Q1", 5⟩] : List RawRecord).filter
          (fun r => decide (r.zoneName = "Q2")) = [] := by
  decide

/-- Claim C10: duplicate keys receive identical values: if the entries of the
input at positions i and j are equal, so are the entries of the output. -/
theorem C10_duplicate_keys_equal (store : List RawRecord) (cap : Int)
    (keys : List LookupKey) (i j : Nat) (h : keys[i]? = keys[j]?) :
    (batch_load store cap keys)[i]? = (batch_load store cap keys)[j]? := by
  rw [batch_load_eq_map, List.getElem?_map, List.getElem?_map, h]

/-- Claim C10 witness: positions 0 and 2 of a batch with a duplicated key. -/
theorem C10_duplicate_keys_equal_witness :
    ([(1, none), (2, some "A"), (1, none)] : List LookupKey)[0]?
        = ([(1, none), (2, some "A"), (1, none)] : List LookupKey)[2]?
      ∧ (batch_load ([] : List RawRecord) 5 [(1, none), (2, some "A"), (1, none)])[0]?
        = (batch_load ([] : List RawRecord) 5 [(1, none), (2, some "A"), (1, none)])[2]? :=
  ⟨by decide, C10_duplicate_keys_equal [] 5 [(1, none), (2, some "A"), (1, none)]
    0 2 (by decide)⟩
